import Mathlib

/-!
Verification of the ephemeris decoder/evaluator of `src/ephemeris_forces.c`
and the dense-output post-processor of `examples/ephem_forces/old/ephemeris.c`
(reboundx, ephem_forces branch).

Modelling conventions:
* C `double` values are modelled as exact rationals (`ℚ`); decimal literals of
  the source are taken at their exact decimal value.  All the claims under
  study are about index computation, control flow and algebraic structure,
  none about IEEE-754 rounding.
* C casts `(int)x` / `(u_int32_t)x` on nonnegative in-range values truncate
  toward zero; they are modelled by `ctrunc`.  `fmod` is modelled by `cfmod`
  following the C definition `fmod(a,b) = a - trunc(a/b)*b`.
* Memory-mapped file contents are modelled as a total function `ℤ → ℚ`
  giving the 8-byte double that starts at a given byte offset.
* Out-parameters written through pointers are modelled by explicit state
  passing; a C function that may call `exit()` returns an `Option`, with
  `none` marking process termination.
-/

namespace Reboundx

/-- Truncation toward zero of a rational, as the C cast of a `double` to an
integer type behaves on values representable in the target type. -/
def ctrunc (q : ℚ) : ℤ :=
  if 0 ≤ q then ⌊q⌋ else -⌊-q⌋

/-- The C library function `fmod`: `fmod(a,b) = a - trunc(a/b)*b`. -/
def cfmod (a b : ℚ) : ℚ :=
  a - b * (ctrunc (a / b) : ℚ)

/-- Chebyshev polynomial values, the recurrence the loop body of `jpl_work`
computes into the array `T`: `T[0]=1`, `T[1]=x`, `T[p]=2x·T[p-1]-T[p-2]`. -/
def chebT (x : ℚ) : ℕ → ℚ
  | 0 => 1
  | 1 => x
  | p + 2 => 2 * x * chebT x (p + 1) - chebT x p

/-- Chebyshev derivative values, the recurrence the loop body of `jpl_work`
computes into the array `S`: `S[0]=0`, `S[1]=1`,
`S[p]=2x·S[p-1]+2·T[p-1]-S[p-2]`. -/
def chebS (x : ℚ) : ℕ → ℚ
  | 0 => 0
  | 1 => 1
  | p + 2 => 2 * x * chebS x (p + 1) + 2 * chebT x (p + 1) - chebS x p

/-- The position accumulation loop of `jpl_work`:
`u[m] += T[p] * P[n+p]` for `p` ascending from `0`. -/
def sumT (P : ℤ → ℚ) (x : ℚ) (n : ℤ) : ℕ → ℚ
  | 0 => 0
  | p + 1 => sumT P x n p + chebT x p * P (n + p)

/-- The velocity accumulation loop of `jpl_work`:
`v[m] += S[p] * P[n+p] * c` for `p` ascending from `0`. -/
def sumS (P : ℤ → ℚ) (x c : ℚ) (n : ℤ) : ℕ → ℚ
  | 0 => 0
  | p + 1 => sumS P x c n p + chebS x p * P (n + p) * c

/-- Model of `jpl_work` (ephemeris_forces.c:159-190).  `P` is the coefficient
slice (double-indexed), `ncm`/`ncf`/`niv` the component, coefficient and
sub-interval counts, `t0` the fractional time within the record, `t1` the
record time span.  Returns the position and velocity component vectors as
functions of the component index `m`. -/
def jpl_work (P : ℤ → ℚ) (ncm ncf niv : ℤ) (t0 t1 : ℚ) : (ℕ → ℚ) × (ℕ → ℚ) :=
  let t : ℚ := t0 * (niv : ℚ)
  let x : ℚ := 2 * cfmod t 1 - 1
  let c : ℚ := ((niv * 2 : ℤ) : ℚ) / t1 / 86400
  let b : ℤ := ctrunc t
  (fun m => sumT P x (ncf * ((m : ℤ) + b * ncm)) ncf.toNat,
   fun m => sumS P x c (ncf * ((m : ℤ) + b * ncm)) ncf.toNat)

/-- Position formula as the specification states it: the sub-interval index is
`b = ⌊t0·niv⌋`, the canonical argument is `x = 2·frac(t0·niv) - 1`, and
`u[m] = ∑ p < ncf, T[p] · P[ncf·(m + b·ncm) + p]`. -/
def specPos (P : ℤ → ℚ) (ncm ncf niv : ℤ) (t0 : ℚ) (m : ℕ) : ℚ :=
  ∑ p in Finset.range ncf.toNat,
    chebT (2 * Int.fract (t0 * (niv : ℚ)) - 1) p *
      P (ncf * ((m : ℤ) + ⌊t0 * (niv : ℚ)⌋ * ncm) + p)

/-- Velocity formula as the specification states it:
`v[m] = ∑ p < ncf, S[p] · P[ncf·(m + b·ncm) + p] · c` with
`c = 2·niv/t1/86400`. -/
def specVel (P : ℤ → ℚ) (ncm ncf niv : ℤ) (t0 t1 : ℚ) (m : ℕ) : ℚ :=
  ∑ p in Finset.range ncf.toNat,
    chebS (2 * Int.fract (t0 * (niv : ℚ)) - 1) p *
      P (ncf * ((m : ℤ) + ⌊t0 * (niv : ℚ)⌋ * ncm) + p) *
      (2 * (niv : ℚ) / t1 / 86400)

theorem ctrunc_of_nonneg {q : ℚ} (h : 0 ≤ q) : ctrunc q = ⌊q⌋ := by
  simp [ctrunc, h]

theorem cfmod_one_of_nonneg {t : ℚ} (h : 0 ≤ t) : cfmod t 1 = Int.fract t := by
  rw [cfmod, div_one, ctrunc_of_nonneg h, Int.fract]
  ring

theorem sumT_eq_sum (P : ℤ → ℚ) (x : ℚ) (n : ℤ) (k : ℕ) :
    sumT P x n k = ∑ p in Finset.range k, chebT x p * P (n + p) := by
  induction k with
  | zero => simp [sumT]
  | succ k ih => rw [sumT, ih, Finset.sum_range_succ]

theorem sumS_eq_sum (P : ℤ → ℚ) (x c : ℚ) (n : ℤ) (k : ℕ) :
    sumS P x c n k = ∑ p in Finset.range k, chebS x p * P (n + p) * c := by
  induction k with
  | zero => simp [sumS]
  | succ k ih => rw [sumS, ih, Finset.sum_range_succ]

/-- C1: for every coefficient slice `P`, component count `ncm`, coefficient
count `ncf ≥ 2`, sub-interval count `niv ≥ 1`, fractional time `t0 ∈ [0,1)`
and span `t1 > 0`, `jpl_work` computes the sub-interval index
`b = ⌊t0·niv⌋`, the canonical argument `x = 2·frac(t0·niv) - 1`, the
Chebyshev values `T` and derivatives `S` by their standard recurrences, and
for each component `m < ncm` returns position
`u[m] = ∑ p < ncf, T[p]·P[ncf·(m+b·ncm)+p]` and velocity
`v[m] = ∑ p < ncf, S[p]·P[ncf·(m+b·ncm)+p]·c` with `c = 2·niv/t1/86400`,
summed in ascending `p` order. -/
theorem jpl_work_matches_spec (P : ℤ → ℚ) (ncm ncf niv : ℤ) (t0 t1 : ℚ) (m : ℕ)
    (hncf : 2 ≤ ncf) (hniv : 1 ≤ niv) (ht0 : 0 ≤ t0) (ht0' : t0 < 1)
    (ht1 : 0 < t1) (hm : (m : ℤ) < ncm) :
    (jpl_work P ncm ncf niv t0 t1).1 m = specPos P ncm ncf niv t0 m ∧
    (jpl_work P ncm ncf niv t0 t1).2 m = specVel P ncm ncf niv t0 t1 m := by
  have hnivq : (0 : ℚ) ≤ (niv : ℚ) := by exact_mod_cast le_trans (by norm_num) hniv
  have htq : (0 : ℚ) ≤ t0 * (niv : ℚ) := mul_nonneg ht0 hnivq
  have hb : ctrunc (t0 * (niv : ℚ)) = ⌊t0 * (niv : ℚ)⌋ := ctrunc_of_nonneg htq
  have hx : cfmod (t0 * (niv : ℚ)) 1 = Int.fract (t0 * (niv : ℚ)) :=
    cfmod_one_of_nonneg htq
  have hc : ((niv * 2 : ℤ) : ℚ) / t1 / 86400 = 2 * (niv : ℚ) / t1 / 86400 := by
    push_cast; ring
  constructor
  · show sumT P _ _ _ = _
    rw [sumT_eq_sum, hb, hx, specPos]
  · show sumS P _ _ _ _ = _
    rw [sumS_eq_sum, hb, hx, hc, specVel]

/-- Concrete slice used by witnesses of the evaluator theorems. -/
def Pw : ℤ → ℚ := fun _ => 1

theorem jpl_work_matches_spec_witness :
    ((2:ℤ) ≤ 2 ∧ (1:ℤ) ≤ 1 ∧ (0:ℚ) ≤ 0 ∧ (0:ℚ) < 1 ∧ (0:ℚ) < 1 ∧ ((0:ℕ) : ℤ) < 1) ∧
    ((jpl_work Pw 1 2 1 0 1).1 0 = specPos Pw 1 2 1 0 0 ∧
     (jpl_work Pw 1 2 1 0 1).2 0 = specVel Pw 1 2 1 0 1 0) :=
  ⟨by norm_num,
   jpl_work_matches_spec Pw 1 2 1 0 1 0 (by norm_num) (by norm_num) (by norm_num)
     (by norm_num) (by norm_num) (by norm_num)⟩

/-- Model of `struct _jpl_s` (ephemeris_forces.c:108-122): the opened,
memory-mapped ephemeris handle.  The field `rec` of the C struct is named
`rec_` because `rec` is reserved in Lean.  `map = none` models an unmapped
handle; `some mem` gives the double stored at each byte offset. -/
structure Jpl where
  beg : ℚ
  end_ : ℚ
  inc : ℚ
  cau : ℚ
  cem : ℚ
  num : ℤ
  ver : ℤ
  off : ℕ → ℤ
  ncf : ℕ → ℤ
  niv : ℕ → ℤ
  ncm : ℕ → ℤ
  len : ℤ
  rec_ : ℤ
  map : Option (ℤ → ℚ)

/-- Model of `struct mpos_s` (ephemeris_forces.c:125-129): position and
velocity vectors plus the time tag. -/
structure Mpos where
  u : Fin 3 → ℚ
  v : Fin 3 → ℚ
  jde : ℚ

/-- Record index computed by `jpl_calc` (ephemeris_forces.c:372):
`blk = (u_int32_t)((jde - beg) / inc)`.  The cast is truncation toward zero,
defined for the nonnegative in-range values the guard admits. -/
def jpl_blk (pl : Jpl) (jde : ℚ) : ℤ :=
  ctrunc ((jde - pl.beg) / pl.inc)

/-- Intra-record fraction computed by `jpl_calc` (ephemeris_forces.c:373):
`t = fmod(jde - beg, inc) / inc`. -/
def jpl_t (pl : Jpl) (jde : ℚ) : ℚ :=
  cfmod (jde - pl.beg) pl.inc / pl.inc

/-- Byte offset of the coefficient block used by `jpl_calc`
(ephemeris_forces.c:374): `z = map + (blk + 2) * rec`. -/
def jpl_zoff (pl : Jpl) (jde : ℚ) : ℤ :=
  (jpl_blk pl jde + 2) * pl.rec_

/-- Coefficient slice for one body slot: the C helpers pass
`&z[off[slot]]` to `jpl_work`, i.e. the double at byte offset
`zoff + 8*(off[slot] + i)` for double index `i`. -/
def slotEval (pl : Jpl) (mem : ℤ → ℚ) (zoff : ℤ) (t : ℚ) (slot : ℕ) :
    (ℕ → ℚ) × (ℕ → ℚ) :=
  jpl_work (fun i => mem (zoff + 8 * (pl.off slot + i)))
    (pl.ncm slot) (pl.ncf slot) (pl.niv slot) t pl.inc

/-- Slot indices of the internal `JPL_*` enumeration
(ephemeris_forces.c:88-106). -/
def JPL_MER : ℕ := 0
def JPL_VEN : ℕ := 1
def JPL_EMB : ℕ := 2
def JPL_MAR : ℕ := 3
def JPL_JUP : ℕ := 4
def JPL_SAT : ℕ := 5
def JPL_URA : ℕ := 6
def JPL_NEP : ℕ := 7
def JPL_PLU : ℕ := 8
def JPL_LUN : ℕ := 9
def JPL_SUN : ℕ := 10

/-- Helper `_bar` (ephemeris_forces.c:316-317): the barycenter returns zero
position and velocity unconditionally. -/
def _bar (_pl : Jpl) (_mem : ℤ → ℚ) (_zoff : ℤ) (_t : ℚ) :
    (Fin 3 → ℚ) × (Fin 3 → ℚ) :=
  (fun _ => 0, fun _ => 0)

/-- Direct-slot helpers `_sun` … `_nep` (ephemeris_forces.c:318-335): one
`jpl_work` call on the corresponding slot, first three components. -/
def slotBody (slot : ℕ) (pl : Jpl) (mem : ℤ → ℚ) (zoff : ℤ) (t : ℚ) :
    (Fin 3 → ℚ) × (Fin 3 → ℚ) :=
  (fun k => (slotEval pl mem zoff t slot).1 k,
   fun k => (slotEval pl mem zoff t slot).2 k)

def _sun : Jpl → (ℤ → ℚ) → ℤ → ℚ → (Fin 3 → ℚ) × (Fin 3 → ℚ) := slotBody JPL_SUN
def _emb : Jpl → (ℤ → ℚ) → ℤ → ℚ → (Fin 3 → ℚ) × (Fin 3 → ℚ) := slotBody JPL_EMB
def _mer : Jpl → (ℤ → ℚ) → ℤ → ℚ → (Fin 3 → ℚ) × (Fin 3 → ℚ) := slotBody JPL_MER
def _ven : Jpl → (ℤ → ℚ) → ℤ → ℚ → (Fin 3 → ℚ) × (Fin 3 → ℚ) := slotBody JPL_VEN
def _mar : Jpl → (ℤ → ℚ) → ℤ → ℚ → (Fin 3 → ℚ) × (Fin 3 → ℚ) := slotBody JPL_MAR
def _jup : Jpl → (ℤ → ℚ) → ℤ → ℚ → (Fin 3 → ℚ) × (Fin 3 → ℚ) := slotBody JPL_JUP
def _sat : Jpl → (ℤ → ℚ) → ℤ → ℚ → (Fin 3 → ℚ) × (Fin 3 → ℚ) := slotBody JPL_SAT
def _ura : Jpl → (ℤ → ℚ) → ℤ → ℚ → (Fin 3 → ℚ) × (Fin 3 → ℚ) := slotBody JPL_URA
def _nep : Jpl → (ℤ → ℚ) → ℤ → ℚ → (Fin 3 → ℚ) × (Fin 3 → ℚ) := slotBody JPL_NEP

/-- Helper `_ear` (ephemeris_forces.c:337-349): Earth is derived, evaluating the
Earth-Moon barycenter and the geocentric Moon slots and composing
`pos = emb + lun * (-1/(1+cem))` for position and velocity alike. -/
def _ear (pl : Jpl) (mem : ℤ → ℚ) (zoff : ℤ) (t : ℚ) :
    (Fin 3 → ℚ) × (Fin 3 → ℚ) :=
  let emb := slotEval pl mem zoff t JPL_EMB
  let lun := slotEval pl mem zoff t JPL_LUN
  (fun k => emb.1 k + lun.1 k * (-1 / (1 + pl.cem)),
   fun k => emb.2 k + lun.2 k * (-1 / (1 + pl.cem)))

/-- Geocentric-Moon raw-slot evaluation, exactly the second `jpl_work` call
made by `_ear` (ephemeris_forces.c:342); the Moon slot has no entry in the
test-particle-facing dispatch table, so the specification phrase
"resolve(Moon_geocentric, barycenter)" denotes this slot evaluation (the
barycenter reference being identically zero). -/
def _lun (pl : Jpl) (mem : ℤ → ℚ) (zoff : ℤ) (t : ℚ) :
    (Fin 3 → ℚ) × (Fin 3 → ℚ) :=
  slotBody JPL_LUN pl mem zoff t

/-- Moon-geocentric state relative to the barycenter at time `jde`, reading
the same record `jpl_calc` selects. -/
def moonGeo (pl : Jpl) (mem : ℤ → ℚ) (jde : ℚ) :
    (Fin 3 → ℚ) × (Fin 3 → ℚ) :=
  _lun pl mem (jpl_zoff pl jde) (jpl_t pl jde)

/-- The dispatch table `_help` (ephemeris_forces.c:353-354), indexed by the
`PLAN_*` body codes 0..10.  An index outside the table is undefined behavior
in the C program; the default branch is a junk value and every theorem below
restricts the index to the table. -/
def _help (n : ℕ) : Jpl → (ℤ → ℚ) → ℤ → ℚ → (Fin 3 → ℚ) × (Fin 3 → ℚ) :=
  match n with
  | 0 => _bar
  | 1 => _sun
  | 2 => _ear
  | 3 => _emb
  | 4 => _mer
  | 5 => _ven
  | 6 => _mar
  | 7 => _jup
  | 8 => _sat
  | 9 => _ura
  | 10 => _nep
  | _ => fun _ _ _ _ => (fun _ => 0, fun _ => 0)

/-- Model of `jpl_calc` (ephemeris_forces.c:356-387).  `pl? = none` models a
NULL handle and `nowOk = false` a NULL output pointer.  The result is the C
return code paired with the state written through `now` (`none` when the
call fails and writes nothing).  The guard mirrors line 368; the inner match
on `pl.map` merely names the mapping the guard has shown to exist. -/
def jpl_calc (pl? : Option Jpl) (nowOk : Bool) (jde : ℚ) (n m : ℕ) :
    ℤ × Option Mpos :=
  match pl? with
  | none => (-1, none)
  | some pl =>
    if nowOk = false then (-1, none)
    else if jde < pl.beg ∨ pl.end_ < jde ∨ pl.map.isNone = true then (-1, none)
    else
      match pl.map with
      | none => (-1, none)
      | some mem =>
        let pos := _help n pl mem (jpl_zoff pl jde) (jpl_t pl jde)
        let ref := _help m pl mem (jpl_zoff pl jde) (jpl_t pl jde)
        (0, some { u := fun p => pos.1 p - ref.1 p,
                   v := fun p => pos.2 p - ref.2 p,
                   jde := jde })

/-- Environment a `jpl_init` call runs in: result of the `open` system call,
the `fstat` size, the header fields the reads at offset 0x0A5C return (the
code never checks the accumulated read return value `ret`), whether `mmap`
returns non-NULL, and the mapped contents. -/
structure FileEnv where
  openOk : Bool
  size : ℤ
  beg : ℚ
  end_ : ℚ
  inc : ℚ
  num : ℤ
  cau : ℚ
  cem : ℚ
  offF : ℕ → ℤ
  ncfF : ℕ → ℤ
  nivF : ℕ → ℤ
  ver : ℤ
  mmapOk : Bool
  mem : ℤ → ℚ

/-- Component counts assumed by `jpl_init` (ephemeris_forces.c:232-236):
3 for every slot, overridden to 2 for nutations (slot 11) and 1 for TT-TDB
(slot 14). -/
def jplNcm : ℕ → ℤ :=
  fun p => if p = 11 then 2 else if p = 14 then 1 else 3

/-- Model of `jpl_init` (ephemeris_forces.c:199-291).  Fails (returns NULL,
i.e. `none`) when the file cannot be opened or the written NULL-map check
trips; otherwise builds the handle: one-based slot offsets decremented, file
size stored in `len`, record byte size
`rec = 2*sizeof(double) + Σ sizeof(double)*ncf*niv*ncm` stored in `rec_`.
No comparison of `len` against `rec_` is performed. -/
def jpl_init (env : FileEnv) : Option Jpl :=
  if env.openOk = false then none
  else
    let map? : Option (ℤ → ℚ) := if env.mmapOk then some env.mem else none
    match map? with
    | none => none
    | some mm =>
      some { beg := env.beg, end_ := env.end_, inc := env.inc,
             cau := env.cau, cem := env.cem, num := env.num, ver := env.ver,
             off := fun p => env.offF p - 1,
             ncf := env.ncfF, niv := env.nivF, ncm := jplNcm,
             len := env.size,
             rec_ := 8 * 2 + ∑ p in Finset.range 15,
               8 * (env.ncfF p * env.nivF p * jplNcm p),
             map := some mm }

/-- Record byte size formula of `jpl_init` (ephemeris_forces.c:268-271),
expressed over the handle fields. -/
def recFormula (j : Jpl) : ℤ :=
  8 * 2 + ∑ p in Finset.range 15, 8 * (j.ncf p * j.niv p * j.ncm p)

theorem jpl_calc_success (pl : Jpl) (mem : ℤ → ℚ) (jde : ℚ) (n m : ℕ)
    (hmap : pl.map = some mem) (hlo : pl.beg ≤ jde) (hhi : jde ≤ pl.end_) :
    jpl_calc (some pl) true jde n m =
      (0, some { u := fun p => (_help n pl mem (jpl_zoff pl jde) (jpl_t pl jde)).1 p
                       - (_help m pl mem (jpl_zoff pl jde) (jpl_t pl jde)).1 p,
                 v := fun p => (_help n pl mem (jpl_zoff pl jde) (jpl_t pl jde)).2 p
                       - (_help m pl mem (jpl_zoff pl jde) (jpl_t pl jde)).2 p,
                 jde := jde }) := by
  have hg : ¬ (jde < pl.beg ∨ pl.end_ < jde ∨ (some mem).isNone = true) := by
    simp [not_or, not_lt]
    exact ⟨hlo, hhi⟩
  have hb : ¬ (true = false) := by simp
  simp only [jpl_calc, hmap, if_neg hb, if_neg hg]

/-- Concrete mapped memory used by witnesses. -/
def memW : ℤ → ℚ := fun _ => 0

/-- Concrete open handle used by witnesses. -/
def plW : Jpl :=
  { beg := 0, end_ := 10, inc := 1, cau := 1, cem := 1, num := 400, ver := 430,
    off := fun _ => 0, ncf := fun _ => 2, niv := fun _ => 1, ncm := jplNcm,
    len := 10000, rec_ := 1000, map := some memW }

/-- C2: for every open ephemeris handle and every time `jde ∈ [beg,end]`,
`jpl_calc` selects record index `blk = ⌊(jde-beg)/inc⌋`, intra-record
fraction `t = frac((jde-beg)/inc)`, and reads the coefficient block at byte
offset `(blk+2)*rec` from the mapped base, where `rec` is the record byte
size the handle was built with by `jpl_init`. -/
theorem jpl_calc_record_selection (pl : Jpl) (mem : ℤ → ℚ) (jde : ℚ)
    (hmap : pl.map = some mem) (hlo : pl.beg ≤ jde) (hhi : jde ≤ pl.end_)
    (hinc : 0 < pl.inc) :
    jpl_blk pl jde = ⌊(jde - pl.beg) / pl.inc⌋ ∧
    jpl_t pl jde = Int.fract ((jde - pl.beg) / pl.inc) ∧
    jpl_zoff pl jde = (⌊(jde - pl.beg) / pl.inc⌋ + 2) * pl.rec_ ∧
    (∀ env j, jpl_init env = some j → j.rec_ = recFormula j) := by
  have ha : (0 : ℚ) ≤ jde - pl.beg := sub_nonneg.mpr hlo
  have hq : (0 : ℚ) ≤ (jde - pl.beg) / pl.inc := div_nonneg ha hinc.le
  have hblk : jpl_blk pl jde = ⌊(jde - pl.beg) / pl.inc⌋ := by
    rw [jpl_blk, ctrunc_of_nonneg hq]
  refine ⟨hblk, ?_, ?_, ?_⟩
  · rw [jpl_t, cfmod, ctrunc_of_nonneg hq, sub_div,
      mul_div_cancel_left₀ _ (ne_of_gt hinc), Int.fract]
  · rw [jpl_zoff, hblk]
  · intro env j hj
    by_cases ho : env.openOk = false
    · simp [jpl_init, ho] at hj
    · by_cases hmm : env.mmapOk
      · simp [jpl_init, ho, hmm] at hj
        subst hj
        rfl
      · simp [jpl_init, ho, hmm] at hj

theorem jpl_calc_record_selection_witness :
    (plW.map = some memW ∧ plW.beg ≤ 5 ∧ (5:ℚ) ≤ plW.end_ ∧ 0 < plW.inc) ∧
    (jpl_blk plW 5 = ⌊((5:ℚ) - plW.beg) / plW.inc⌋ ∧
     jpl_t plW 5 = Int.fract (((5:ℚ) - plW.beg) / plW.inc) ∧
     jpl_zoff plW 5 = (⌊((5:ℚ) - plW.beg) / plW.inc⌋ + 2) * plW.rec_ ∧
     (∀ env j, jpl_init env = some j → j.rec_ = recFormula j)) :=
  ⟨⟨rfl, by norm_num [plW], by norm_num [plW], by norm_num [plW]⟩,
   jpl_calc_record_selection plW memW 5 rfl (by norm_num [plW])
     (by norm_num [plW]) (by norm_num [plW])⟩

/-- C3: for every open handle and valid time, the Earth body state is
derived, never read from a raw file slot: resolving Earth against the
barycenter yields exactly the Earth-Moon-barycenter state minus the
geocentric-Moon slot state scaled by `1/(1+cem)`, componentwise for both the
position and the velocity vector. -/
theorem earth_is_derived (pl : Jpl) (mem : ℤ → ℚ) (jde : ℚ)
    (hmap : pl.map = some mem) (hlo : pl.beg ≤ jde) (hhi : jde ≤ pl.end_) :
    ∃ rE rM : Mpos,
      (jpl_calc (some pl) true jde 2 0).2 = some rE ∧
      (jpl_calc (some pl) true jde 3 0).2 = some rM ∧
      ∀ k : Fin 3,
        rE.u k = rM.u k - (moonGeo pl mem jde).1 k / (1 + pl.cem) ∧
        rE.v k = rM.v k - (moonGeo pl mem jde).2 k / (1 + pl.cem) := by
  have h2 := jpl_calc_success pl mem jde 2 0 hmap hlo hhi
  have h3 := jpl_calc_success pl mem jde 3 0 hmap hlo hhi
  refine ⟨_, _, congrArg Prod.snd h2, congrArg Prod.snd h3, ?_⟩
  intro k
  constructor <;>
    · simp [_help, _ear, _emb, _bar, _lun, moonGeo, slotBody]
      ring

theorem earth_is_derived_witness :
    (plW.map = some memW ∧ plW.beg ≤ 5 ∧ (5:ℚ) ≤ plW.end_) ∧
    (∃ rE rM : Mpos,
      (jpl_calc (some plW) true 5 2 0).2 = some rE ∧
      (jpl_calc (some plW) true 5 3 0).2 = some rM ∧
      ∀ k : Fin 3,
        rE.u k = rM.u k - (moonGeo plW memW 5).1 k / (1 + plW.cem) ∧
        rE.v k = rM.v k - (moonGeo plW memW 5).2 k / (1 + plW.cem)) :=
  ⟨⟨rfl, by norm_num [plW], by norm_num [plW]⟩,
   earth_is_derived plW memW 5 rfl (by norm_num [plW]) (by norm_num [plW])⟩

/-- C4: the resolver fails with an error result exactly when the time
argument is outside `[beg,end]`, the file is not mapped, or a NULL handle or
output pointer is passed; in particular a query at `jde = beg - 1` returns
the error result `(-1, no state written)` rather than evaluating anything. -/
theorem jpl_calc_error_iff :
    (∀ (nowOk : Bool) (jde : ℚ) (n m : ℕ),
      jpl_calc none nowOk jde n m = (-1, none)) ∧
    (∀ (pl : Jpl) (nowOk : Bool) (jde : ℚ) (n m : ℕ), n ≤ 10 → m ≤ 10 →
      (jpl_calc (some pl) nowOk jde n m = (-1, none) ↔
        nowOk = false ∨ jde < pl.beg ∨ pl.end_ < jde ∨ pl.map = none)) ∧
    (∀ (pl : Jpl) (nowOk : Bool) (n m : ℕ),
      jpl_calc (some pl) nowOk (pl.beg - 1) n m = (-1, none)) := by
  refine ⟨fun _ _ _ _ => rfl, ?_, ?_⟩
  · intro pl b jde n m _ _
    constructor
    · intro h
      by_contra hc
      push_neg at hc
      obtain ⟨hb, h1, h2, h3⟩ := hc
      have hb' : b = true := by
        cases b
        · exact absurd rfl hb
        · rfl
      obtain ⟨mem, hmem⟩ := Option.ne_none_iff_exists'.mp h3
      rw [hb', jpl_calc_success pl mem jde n m hmem h1 h2] at h
      simp at h
    · intro h
      rcases h with hb | h1 | h2 | h3
      · simp [jpl_calc, hb]
      · cases b <;> simp [jpl_calc, h1]
      · cases b <;> simp [jpl_calc, h2]
      · cases b <;> simp [jpl_calc, h3]
  · intro pl b n m
    cases b <;> simp [jpl_calc]

theorem jpl_calc_error_iff_witness :
    ((0:ℕ) ≤ 10 ∧ (0:ℕ) ≤ 10) ∧
    (jpl_calc (some plW) true 20 0 0 = (-1, none) ↔
      true = false ∨ (20:ℚ) < plW.beg ∨ plW.end_ < 20 ∨ plW.map = none) :=
  ⟨⟨by norm_num, by norm_num⟩,
   jpl_calc_error_iff.2.1 plW true 20 0 0 (by norm_num) (by norm_num)⟩

/-- C9: for every open handle, valid time, and pair of test-particle-facing
body codes, the relative state is antisymmetric — swapping target and
reference negates the position and velocity vectors exactly — and resolving
the barycenter against itself gives exactly zero position and velocity. -/
theorem jpl_calc_antisymmetry (pl : Jpl) (mem : ℤ → ℚ) (jde : ℚ) (n m : ℕ)
    (hmap : pl.map = some mem) (hlo : pl.beg ≤ jde) (hhi : jde ≤ pl.end_)
    (hn : n ≤ 10) (hm : m ≤ 10) :
    (∃ r1 r2 : Mpos,
      (jpl_calc (some pl) true jde n m).2 = some r1 ∧
      (jpl_calc (some pl) true jde m n).2 = some r2 ∧
      ∀ k : Fin 3, r2.u k = - r1.u k ∧ r2.v k = - r1.v k) ∧
    (∃ r0 : Mpos,
      (jpl_calc (some pl) true jde 0 0).2 = some r0 ∧
      ∀ k : Fin 3, r0.u k = 0 ∧ r0.v k = 0) := by
  constructor
  · have h1 := jpl_calc_success pl mem jde n m hmap hlo hhi
    have h2 := jpl_calc_success pl mem jde m n hmap hlo hhi
    refine ⟨_, _, congrArg Prod.snd h1, congrArg Prod.snd h2, ?_⟩
    intro k
    constructor <;>
      · simp only []
        ring
  · have h0 := jpl_calc_success pl mem jde 0 0 hmap hlo hhi
    refine ⟨_, congrArg Prod.snd h0, ?_⟩
    intro k
    constructor <;> simp [_help, _bar]

theorem jpl_calc_antisymmetry_witness :
    (plW.map = some memW ∧ plW.beg ≤ 5 ∧ (5:ℚ) ≤ plW.end_ ∧
      (1:ℕ) ≤ 10 ∧ (7:ℕ) ≤ 10) ∧
    ((∃ r1 r2 : Mpos,
      (jpl_calc (some plW) true 5 1 7).2 = some r1 ∧
      (jpl_calc (some plW) true 5 7 1).2 = some r2 ∧
      ∀ k : Fin 3, r2.u k = - r1.u k ∧ r2.v k = - r1.v k) ∧
    (∃ r0 : Mpos,
      (jpl_calc (some plW) true 5 0 0).2 = some r0 ∧
      ∀ k : Fin 3, r0.u k = 0 ∧ r0.v k = 0)) :=
  ⟨⟨rfl, by norm_num [plW], by norm_num [plW], by norm_num, by norm_num⟩,
   jpl_calc_antisymmetry plW memW 5 1 7 rfl (by norm_num [plW])
     (by norm_num [plW]) (by norm_num) (by norm_num)⟩

/-- Environment with a well-formed header but a zero-byte file: every open
and mmap step succeeds, yet the file cannot hold even one record. -/
def envSmall : FileEnv :=
  { openOk := true, size := 0, beg := 0, end_ := 1, inc := 1, num := 400,
    cau := 1, cem := 1, offF := fun _ => 1, ncfF := fun _ => 4,
    nivF := fun _ => 1, ver := 430, mmapOk := true, mem := fun _ => 0 }

/-- Environment for which `jpl_init` succeeds, used by witnesses. -/
def envW : FileEnv :=
  { openOk := true, size := 10000, beg := 0, end_ := 10, inc := 1, num := 400,
    cau := 1, cem := 1, offF := fun _ => 1, ncfF := fun _ => 2,
    nivF := fun _ => 1, ver := 430, mmapOk := true, mem := fun _ => 0 }

/-- C7 counterexample: `jpl_init` accepts a zero-byte file whose
header-derived record size is 1360 bytes, so the handle is NOT rejected even
though the coefficient block for the in-range time `beg` starts at byte
offset `(0+2)*1360 = 2720`, far past the mapped region of length 0.  No
file-size-sufficiency validation exists in `jpl_init`
(ephemeris_forces.c:266-277 only store the sizes). -/
theorem jpl_init_no_size_check_cex :
    (jpl_init envSmall).isSome = true ∧
    Option.map Jpl.len (jpl_init envSmall) = some 0 ∧
    Option.map Jpl.rec_ (jpl_init envSmall) = some 1360 ∧
    Option.map (fun j => jpl_zoff j envSmall.beg) (jpl_init envSmall) =
      some 2720 ∧
    envSmall.beg ≤ envSmall.end_ := by
  refine ⟨by decide, by decide, by decide, ?_, by norm_num [envSmall]⟩
  simp only [jpl_init, envSmall]
  norm_num [jpl_zoff, jpl_blk, ctrunc, jplNcm, Finset.sum_range_succ]

/-- C7 amended: `jpl_init` performs no validation of the file size against
the computed record size: whenever the open and mmap steps succeed it
returns a handle for every file size whatsoever, merely storing the size in
`len` and the header-derived record byte size in `rec_`; a file too small
for one record is not rejected, and an in-range coefficient read may extend
past the mapped region. -/
theorem jpl_init_no_size_check_amended (env : FileEnv)
    (ho : env.openOk = true) (hm : env.mmapOk = true) :
    ∀ s : ℤ, (jpl_init { env with size := s }).isSome = true ∧
      Option.map Jpl.len (jpl_init { env with size := s }) = some s := by
  intro s
  simp [jpl_init, ho, hm]

theorem jpl_init_no_size_check_amended_witness :
    (envW.openOk = true ∧ envW.mmapOk = true) ∧
    ((jpl_init { envW with size := 5 }).isSome = true ∧
      Option.map Jpl.len (jpl_init { envW with size := 5 }) = some 5) :=
  ⟨⟨rfl, rfl⟩, jpl_init_no_size_check_amended envW rfl rfl 5⟩

/-- The four out-parameters `m,x,y,z` of `ephem`
(ephemeris_forces.c:393).  They are uninitialized locals of the caller, so
`ephem` is modelled as a state transformer on this record. -/
structure EphState where
  m : ℚ
  x : ℚ
  y : ℚ
  z : ℚ

/-- Model of `ephem` (ephemeris_forces.c:393-476).  The C function opens the
ephemeris file itself on every call; `env` is the environment that open runs
in, and `now0` stands for the uninitialized local `now` that `jpl_calc` may
leave untouched (its return value is ignored by the C code).  A `none`
result models `exit(EXIT_FAILURE)` (line 405): the process terminates when
the DE430 file cannot be loaded.  Only body indices 0..4 assign the
out-parameters (Sun, Jupiter, Saturn, Uranus, Neptune); any other index
leaves them at their prior values. -/
def ephem (env : FileEnv) (now0 : Mpos) (i : ℕ) (t : ℚ) (st : EphState) :
    Option EphState :=
  match jpl_init env with
  | none => none
  | some pl =>
    let mu : ℚ := 1 / 1000
    let m0 : ℚ := 1 - mu
    let m1 : ℚ := mu
    let jde : ℚ := t + 2450123.7
    let st1 :=
      if i = 0 then
        let now := ((jpl_calc (some pl) true jde 1 0).2).getD now0
        { m := m0, x := now.u 0 / pl.cau, y := now.u 1 / pl.cau,
          z := now.u 2 / pl.cau }
      else st
    let st2 :=
      if i = 1 then
        let now := ((jpl_calc (some pl) true jde 7 0).2).getD now0
        { m := m1, x := now.u 0 / pl.cau, y := now.u 1 / pl.cau,
          z := now.u 2 / pl.cau }
      else st1
    let st3 :=
      if i = 2 then
        let now := ((jpl_calc (some pl) true jde 8 0).2).getD now0
        { m := m1, x := now.u 0 / pl.cau, y := now.u 1 / pl.cau,
          z := now.u 2 / pl.cau }
      else st2
    let st4 :=
      if i = 3 then
        let now := ((jpl_calc (some pl) true jde 9 0).2).getD now0
        { m := m1, x := now.u 0 / pl.cau, y := now.u 1 / pl.cau,
          z := now.u 2 / pl.cau }
      else st3
    let st5 :=
      if i = 4 then
        let now := ((jpl_calc (some pl) true jde 10 0).2).getD now0
        { m := m1, x := now.u 0 / pl.cau, y := now.u 1 / pl.cau,
          z := now.u 2 / pl.cau }
      else st4
    some st5

/-- Fields of `struct reb_particle` touched by the force engine. -/
structure Particle where
  x : ℚ
  y : ℚ
  z : ℚ
  vx : ℚ
  vy : ℚ
  vz : ℚ
  ax : ℚ
  ay : ℚ
  az : ℚ

/-- Inner loop body of `rebx_ephemeris_forces`
(ephemeris_forces.c:490-500): Newtonian pull of the current ephemeris body
on one particle, subtracted into its acceleration accumulator.  `sqrtA` is
an abstract square-root oracle standing for the C library `sqrt`, whose
value is irrational in general and irrelevant to the claims below. -/
def applyForce (sqrtA : ℚ → ℚ) (G : ℚ) (st : EphState) (p : Particle) :
    Particle :=
  let dx := p.x - st.x
  let dy := p.y - st.y
  let dz := p.z - st.z
  let r := sqrtA (dx * dx + dy * dy + dz * dz)
  let prefac := G * st.m / (r * r * r)
  { p with ax := p.ax - prefac * dx, ay := p.ay - prefac * dy,
           az := p.az - prefac * dz }

/-- The body-index loop of `rebx_ephemeris_forces`
(ephemeris_forces.c:488-501) starting at index `i` with `fuel` iterations
left, threading the uninitialized-out-parameter state across iterations
exactly as the C locals `m,x,y,z` persist between `ephem` calls.  `none`
propagates a process exit raised inside `ephem`. -/
def engineFrom (sqrtA : ℚ → ℚ) (env : FileEnv) (now0 : Mpos) (G t : ℚ) :
    ℕ → ℕ → EphState → List Particle → Option (EphState × List Particle)
  | _, 0, st, ps => some (st, ps)
  | i, fuel + 1, st, ps =>
    match ephem env now0 i t st with
    | none => none
    | some st' =>
      engineFrom sqrtA env now0 G t (i + 1) fuel st'
        (ps.map (applyForce sqrtA G st'))

/-- Result of one force-engine invocation: the process exited inside
`ephem`, or the engine reported the missing-parameter error and returned
without touching the particles, or it completed with the updated
particles. -/
inductive ForceOutcome where
  | exited : ForceOutcome
  | errReturn : List Particle → ForceOutcome
  | ok : List Particle → ForceOutcome

/-- Model of `rebx_ephemeris_forces` (ephemeris_forces.c:478-502).
`N_ephem?` is the result of the `rebx_get_param` lookup; when it is absent
the C code prints a diagnostic and returns at once, mutating nothing.
`st0` stands for the uninitialized locals `m,x,y,z` declared before the
loop. -/
def rebx_ephemeris_forces (sqrtA : ℚ → ℚ) (env : FileEnv) (now0 : Mpos)
    (st0 : EphState) (N_ephem? : Option ℤ) (G t : ℚ)
    (particles : List Particle) : ForceOutcome :=
  match N_ephem? with
  | none => ForceOutcome.errReturn particles
  | some nE =>
    match engineFrom sqrtA env now0 G t 0 nE.toNat st0 particles with
    | none => ForceOutcome.exited
    | some r => ForceOutcome.ok r.2

/-- C5: if the `N_ephem` configuration parameter is absent, the force
engine reports a configuration error and performs no work: for every
particle array and every simulation state the particle list is returned
exactly as it was (no acceleration or any other field mutated), and the
process is not crashed. -/
theorem ephem_forces_missing_param_no_work (sqrtA : ℚ → ℚ) (env : FileEnv)
    (now0 : Mpos) (st0 : EphState) (G t : ℚ) (particles : List Particle) :
    rebx_ephemeris_forces sqrtA env now0 st0 none G t particles =
      ForceOutcome.errReturn particles :=
  rfl

/-- Environment whose open system call fails (no ephemeris file). -/
def envBad : FileEnv := { envW with openOk := false }

/-- Zero-initialized stand-in for the uninitialized local `now`. -/
def mpos0 : Mpos := { u := fun _ => 0, v := fun _ => 0, jde := 0 }

/-- Zero-initialized stand-in for the uninitialized locals `m,x,y,z`. -/
def st0W : EphState := { m := 0, x := 0, y := 0, z := 0 }

theorem ephem_high_noop (env : FileEnv) (now0 : Mpos) (i : ℕ) (t : ℚ)
    (st : EphState) (hi : 5 ≤ i) (hs : (jpl_init env).isSome = true) :
    ephem env now0 i t st = some st := by
  obtain ⟨pl, hpl⟩ := Option.isSome_iff_exists.mp hs
  have h0 : i ≠ 0 := by omega
  have h1 : i ≠ 1 := by omega
  have h2 : i ≠ 2 := by omega
  have h3 : i ≠ 3 := by omega
  have h4 : i ≠ 4 := by omega
  simp [ephem, hpl, h0, h1, h2, h3, h4]

theorem engineFrom_high (A : ℚ → ℚ) (env : FileEnv) (now0 : Mpos) (G t : ℚ)
    (fuel : ℕ) (hs : (jpl_init env).isSome = true) :
    ∀ k st ps, 5 ≤ k →
      engineFrom A env now0 G t k fuel st ps =
        some (st, (List.map (applyForce A G st))^[fuel] ps) := by
  induction fuel with
  | zero =>
    intro k st ps _
    simp [engineFrom]
  | succ fuel ih =>
    intro k st ps hk
    rw [engineFrom, ephem_high_noop env now0 k t st hk hs]
    show engineFrom A env now0 G t (k + 1) fuel st
        (List.map (applyForce A G st) ps) =
      some (st, (List.map (applyForce A G st))^[fuel + 1] ps)
    rw [ih (k + 1) st (List.map (applyForce A G st) ps) (by omega),
      Function.iterate_succ_apply]

theorem engineFrom_append (A : ℚ → ℚ) (env : FileEnv) (now0 : Mpos)
    (G t : ℚ) (a : ℕ) :
    ∀ b i st ps,
      engineFrom A env now0 G t i (a + b) st ps =
        Option.bind (engineFrom A env now0 G t i a st ps)
          (fun r => engineFrom A env now0 G t (i + a) b r.1 r.2) := by
  induction a with
  | zero =>
    intro b i st ps
    simp [engineFrom]
  | succ a ih =>
    intro b i st ps
    have hn : a + 1 + b = (a + b) + 1 := by omega
    rw [hn, engineFrom, engineFrom]
    cases h : ephem env now0 i t st with
    | none => simp
    | some st' =>
      simp only [Option.bind]
      rw [ih b (i + 1) st' (ps.map (applyForce A G st'))]
      have hi : i + 1 + a = i + (a + 1) := by omega
      rw [hi]
      rfl

/-- C10: for every body index `i` outside `{0,1,2,3,4}`, `ephem` assigns
none of its out-parameters `m,x,y,z`: provided the ephemeris file loads, the
call returns the state exactly as it was.  Consequently, once the engine
loop index reaches 5, the leftover state (the one produced by the `i = 4`
Neptune iteration) is reapplied unchanged by every remaining iteration: the
loop from any index `k ≥ 5` keeps its entry state and just repeats the same
per-particle update, so a run with `N_ephem = nE ≥ 5` equals the first 5
iterations followed by `nE - 5` applications of the `i = 4` leftover. -/
theorem ephem_frame_effect :
    (∀ (env : FileEnv) (now0 : Mpos) (i : ℕ) (t : ℚ) (st : EphState),
      5 ≤ i → (jpl_init env).isSome = true →
      ephem env now0 i t st = some st) ∧
    (∀ (A : ℚ → ℚ) (env : FileEnv) (now0 : Mpos) (G t : ℚ) (fuel k : ℕ)
      (st : EphState) (ps : List Particle),
      5 ≤ k → (jpl_init env).isSome = true →
      engineFrom A env now0 G t k fuel st ps =
        some (st, (List.map (applyForce A G st))^[fuel] ps)) ∧
    (∀ (A : ℚ → ℚ) (env : FileEnv) (now0 : Mpos) (G t : ℚ) (nE : ℕ)
      (st : EphState) (ps : List Particle),
      5 ≤ nE → (jpl_init env).isSome = true →
      engineFrom A env now0 G t 0 nE st ps =
        Option.bind (engineFrom A env now0 G t 0 5 st ps)
          (fun r => some (r.1,
            (List.map (applyForce A G r.1))^[nE - 5] r.2))) := by
  refine ⟨?_, ?_, ?_⟩
  · intro env now0 i t st hi hs
    exact ephem_high_noop env now0 i t st hi hs
  · intro A env now0 G t fuel k st ps hk hs
    exact engineFrom_high A env now0 G t fuel hs k st ps hk
  · intro A env now0 G t nE st ps hn hs
    have h1 : nE = 5 + (nE - 5) := by omega
    conv_lhs => rw [h1]
    rw [engineFrom_append A env now0 G t 5 (nE - 5) 0 st ps]
    congr 1
    funext r
    rw [engineFrom_high A env now0 G t (nE - 5) hs (0 + 5) r.1 r.2 (by omega)]

theorem ephem_frame_effect_witness :
    ((5:ℕ) ≤ 6 ∧ (jpl_init envW).isSome = true) ∧
    ephem envW mpos0 6 0 st0W = some st0W :=
  ⟨⟨by norm_num, by decide⟩,
   ephem_frame_effect.1 envW mpos0 6 0 st0W (by norm_num) (by decide)⟩

/-- C8 counterexample: the claim says no failure in the core ever
terminates the process along the whole per-evaluation call path, including
`ephem` when the ephemeris file fails to load, and that error values of
distinct causes are distinguishable.  But `ephem` calls
`exit(EXIT_FAILURE)` when `jpl_init` returns NULL (ephemeris_forces.c:405),
modelled by the `none` outcome, and `jpl_calc` returns the same `-1` for a
NULL handle as for an out-of-range time, so those causes are not
distinguishable by the caller. -/
theorem error_propagation_cex :
    ephem envBad mpos0 0 0 st0W = none ∧
    (jpl_calc none true 0 0 0).1 =
      (jpl_calc (some plW) true (plW.beg - 1) 0 0).1 := by
  constructor
  · rfl
  · have hlt : plW.beg - 1 < plW.beg := by norm_num [plW]
    simp [jpl_calc, hlt]

/-- C8 amended: the decoder and the resolver themselves never terminate the
process — `jpl_init` returns NULL (`none`) on every failure (open failure,
NULL mmap check) and `jpl_calc` returns `-1` writing no state (NULL handle,
unmapped file, out-of-range time) — but the error values do not distinguish
the failure causes (one NULL, one `-1` for everything), and the per-body
lookup `ephem` used by the force engine terminates the process via
`exit(EXIT_FAILURE)` when the ephemeris file fails to load. -/
theorem error_propagation_amended :
    (∀ env, env.openOk = false → jpl_init env = none) ∧
    (∀ env, env.mmapOk = false → jpl_init env = none) ∧
    (∀ (b : Bool) (jde : ℚ) (n m : ℕ), jpl_calc none b jde n m = (-1, none)) ∧
    (∀ (pl : Jpl) (b : Bool) (jde : ℚ) (n m : ℕ), pl.map = none →
      jpl_calc (some pl) b jde n m = (-1, none)) ∧
    (∀ (pl : Jpl) (b : Bool) (n m : ℕ),
      jpl_calc (some pl) b (pl.beg - 1) n m = (-1, none)) ∧
    (∀ (env : FileEnv) (now0 : Mpos) (i : ℕ) (t : ℚ) (st : EphState),
      jpl_init env = none → ephem env now0 i t st = none) := by
  refine ⟨?_, ?_, fun _ _ _ _ => rfl, ?_, ?_, ?_⟩
  · intro env h
    simp [jpl_init, h]
  · intro env h
    cases hoo : env.openOk <;> simp [jpl_init, hoo, h]
  · intro pl b jde n m h
    cases b <;> simp [jpl_calc, h]
  · intro pl b n m
    cases b <;> simp [jpl_calc]
  · intro env now0 i t st h
    simp [ephem, h]

theorem error_propagation_amended_witness :
    (envBad.openOk = false ∧ jpl_init envBad = none) ∧
    ephem envBad mpos0 2 0 st0W = none :=
  ⟨⟨rfl, error_propagation_amended.1 envBad rfl⟩,
   error_propagation_amended.2.2.2.2.2 envBad mpos0 2 0 st0W rfl⟩

/-- Model of the `tstate` record of the old driver
(examples/ephem_forces/old/ephemeris.c:70-72). -/
structure Tstate where
  t : ℚ
  x : ℚ
  y : ℚ
  z : ℚ
  vx : ℚ
  vy : ℚ
  vz : ℚ
  ax : ℚ
  ay : ℚ
  az : ℚ

/-- Fields of `struct reb_simulation` read by `store_function`: current time
`t`, last-completed step size `dt_last_done`, particle count `N`, and the
seven `br` coefficient arrays `p0..p6` (index `c < 7`) over the flattened
axis index `k < 3N`. -/
structure SimR where
  t : ℚ
  dt_last_done : ℚ
  N : ℕ
  b : Fin 7 → ℕ → ℚ

/-- The Gauss-Radau spacings array `h[9]`
(examples/ephem_forces/old/ephemeris.c:75), decimal literals taken at their
exact value. -/
def hRadau : ℕ → ℚ
  | 0 => 0
  | 1 => 0.0562625605369221464656521910318
  | 2 => 0.180240691736892364987579942780
  | 3 => 0.352624717113169637373907769648
  | 4 => 0.547153626330555383001448554766
  | 5 => 0.734210177215410531523210605558
  | 6 => 0.885320946839095768090359771030
  | 7 => 0.977520613561287501891174488626
  | 8 => 1
  | _ => 0

/-- The scratch array `x0`: `x0[3i+0]=last.x, x0[3i+1]=last.y,
x0[3i+2]=last.z` for every particle `i < N` (ephemeris.c:199-217; the same
`last` state is copied for every particle).  Entries at `k ≥ 3N` are
uninitialized in C and never read; they are 0 here. -/
def x0arr (r : SimR) (last : Tstate) : ℕ → ℚ :=
  fun k => if k < 3 * r.N then
    (if k % 3 = 0 then last.x else if k % 3 = 1 then last.y else last.z)
  else 0

/-- The scratch array `v0` filled from `last.vx, last.vy, last.vz`. -/
def v0arr (r : SimR) (last : Tstate) : ℕ → ℚ :=
  fun k => if k < 3 * r.N then
    (if k % 3 = 0 then last.vx else if k % 3 = 1 then last.vy else last.vz)
  else 0

/-- The scratch array `a0` filled from `last.ax, last.ay, last.az`. -/
def a0arr (r : SimR) (last : Tstate) : ℕ → ℚ :=
  fun k => if k < 3 * r.N then
    (if k % 3 = 0 then last.ax else if k % 3 = 1 then last.ay else last.az)
  else 0

/-- Predicted position at node `n` for flattened axis index `k`
(ephemeris.c:222-242): the cumulative-power coefficients `s[0..8]` built
from `dt_last_done * h[n]`, then
`x0[k] + s8*b6[k] + s7*b5[k] + … + s2*b0[k] + s1*a0[k] + s0*v0[k]`. -/
def predictPos (r : SimR) (last : Tstate) (n k : ℕ) : ℚ :=
  let hn := hRadau n
  let s0 := r.dt_last_done * hn
  let s1 := s0 * s0 / 2
  let s2 := s1 * hn / 3
  let s3 := s2 * hn / 2
  let s4 := 3 * s3 * hn / 5
  let s5 := 2 * s4 * hn / 3
  let s6 := 5 * s5 * hn / 7
  let s7 := 3 * s6 * hn / 4
  let s8 := 7 * s7 * hn / 9
  x0arr r last k +
    (s8 * r.b 6 k + s7 * r.b 5 k + s6 * r.b 4 k + s5 * r.b 3 k +
     s4 * r.b 2 k + s3 * r.b 1 k + s2 * r.b 0 k +
     s1 * a0arr r last k + s0 * v0arr r last k)

/-- Predicted velocity at node `n` for flattened axis index `k`
(ephemeris.c:253-271): the derivative coefficients `s[0..7]`, then
`v0[k] + s7*b6[k] + … + s1*b0[k] + s0*a0[k]`. -/
def predictVel (r : SimR) (last : Tstate) (n k : ℕ) : ℚ :=
  let hn := hRadau n
  let s0 := r.dt_last_done * hn
  let s1 := s0 * hn / 2
  let s2 := 2 * s1 * hn / 3
  let s3 := 3 * s2 * hn / 4
  let s4 := 4 * s3 * hn / 5
  let s5 := 5 * s4 * hn / 6
  let s6 := 6 * s5 * hn / 7
  let s7 := 7 * s6 * hn / 8
  v0arr r last k +
    (s7 * r.b 6 k + s6 * r.b 5 k + s5 * r.b 4 k + s4 * r.b 3 k +
     s3 * r.b 2 k + s2 * r.b 1 k + s1 * r.b 0 k + s0 * a0arr r last k)

/-- In-place write to one slot of the `outstate` array: fields not assigned
by the C statements keep their previous values. -/
def upd (f : ℕ → Tstate) (k : ℕ) (g : Tstate → Tstate) : ℕ → Tstate :=
  fun j => if j = k then g (f k) else f j

/-- One iteration of the position inner loop (ephemeris.c:234-251): for
particle `i`, write `t, x, y, z` of slot `n_out + n` (every particle
overwrites the same slot). -/
def storePosWrite (r : SimR) (last : Tstate) (n_out n i : ℕ)
    (acc : ℕ → Tstate) : ℕ → Tstate :=
  upd acc (n_out + n) (fun o =>
    { o with t := r.t + r.dt_last_done * (hRadau n - 1),
             x := predictPos r last n (3 * i),
             y := predictPos r last n (3 * i + 1),
             z := predictPos r last n (3 * i + 2) })

/-- One iteration of the velocity inner loop (ephemeris.c:263-277): for
particle `i`, write `vx, vy, vz` of slot `n_out + n`. -/
def storeVelWrite (r : SimR) (last : Tstate) (n_out n i : ℕ)
    (acc : ℕ → Tstate) : ℕ → Tstate :=
  upd acc (n_out + n) (fun o =>
    { o with vx := predictVel r last n (3 * i),
             vy := predictVel r last n (3 * i + 1),
             vz := predictVel r last n (3 * i + 2) })

/-- Body of the `n`-loop of `store_function` for one Gauss-Radau node `n`
(ephemeris.c:220-279): the position inner loop over all particles, then the
velocity inner loop. -/
def storeNode (r : SimR) (last : Tstate) (n_out n : ℕ) (acc : ℕ → Tstate) :
    ℕ → Tstate :=
  (List.range r.N).foldl (fun a i => storeVelWrite r last n_out n i a)
    ((List.range r.N).foldl (fun a i => storePosWrite r last n_out n i a) acc)

/-- Model of `store_function` (ephemeris.c:177-285): writes the step-start
state `last` (its `t,x,y,z,vx,vy,vz` fields) into slot `n_out`, then for
each node `n = 1..7` writes the predicted state into slot `n_out + n`.  The
node `h[8] = 1.0` is never used: the loop runs `n = 1..7`. -/
def store_function (r : SimR) (outstate : ℕ → Tstate) (last : Tstate)
    (n_out : ℕ) : ℕ → Tstate :=
  (List.range 7).foldl (fun acc n1 => storeNode r last n_out (n1 + 1) acc)
    (upd outstate n_out (fun o =>
      { o with t := last.t, x := last.x, y := last.y, z := last.z,
               vx := last.vx, vy := last.vy, vz := last.vz }))

theorem upd_ne (f : ℕ → Tstate) (k j : ℕ) (g : Tstate → Tstate)
    (h : j ≠ k) : upd f k g j = f j := by
  simp [upd, h]

theorem foldPos_ne (r : SimR) (last : Tstate) (n_out n : ℕ) (l : List ℕ) :
    ∀ (acc : ℕ → Tstate) (j : ℕ), j ≠ n_out + n →
      (l.foldl (fun a i => storePosWrite r last n_out n i a) acc) j = acc j := by
  induction l with
  | nil => intro acc j _; rfl
  | cons i l ih =>
    intro acc j hj
    rw [List.foldl_cons, ih (storePosWrite r last n_out n i acc) j hj]
    exact upd_ne acc (n_out + n) j _ hj

theorem foldVel_ne (r : SimR) (last : Tstate) (n_out n : ℕ) (l : List ℕ) :
    ∀ (acc : ℕ → Tstate) (j : ℕ), j ≠ n_out + n →
      (l.foldl (fun a i => storeVelWrite r last n_out n i a) acc) j = acc j := by
  induction l with
  | nil => intro acc j _; rfl
  | cons i l ih =>
    intro acc j hj
    rw [List.foldl_cons, ih (storeVelWrite r last n_out n i acc) j hj]
    exact upd_ne acc (n_out + n) j _ hj

theorem foldPos_t (r : SimR) (last : Tstate) (n_out n : ℕ) (l : List ℕ) :
    ∀ acc : ℕ → Tstate, l ≠ [] →
      ((l.foldl (fun a i => storePosWrite r last n_out n i a) acc)
          (n_out + n)).t = r.t + r.dt_last_done * (hRadau n - 1) := by
  induction l with
  | nil => intro acc h; exact absurd rfl h
  | cons i l ih =>
    intro acc _
    rw [List.foldl_cons]
    cases l with
    | nil => simp [storePosWrite, upd]
    | cons i2 l2 => exact ih _ (by simp)

theorem foldVel_t (r : SimR) (last : Tstate) (n_out n : ℕ) (l : List ℕ) :
    ∀ acc : ℕ → Tstate,
      ((l.foldl (fun a i => storeVelWrite r last n_out n i a) acc)
          (n_out + n)).t = (acc (n_out + n)).t := by
  induction l with
  | nil => intro acc; rfl
  | cons i l ih =>
    intro acc
    rw [List.foldl_cons, ih (storeVelWrite r last n_out n i acc)]
    simp [storeVelWrite, upd]

theorem storeNode_ne (r : SimR) (last : Tstate) (n_out n : ℕ)
    (acc : ℕ → Tstate) (j : ℕ) (hj : j ≠ n_out + n) :
    storeNode r last n_out n acc j = acc j := by
  rw [storeNode, foldVel_ne r last n_out n _ _ j hj,
    foldPos_ne r last n_out n _ acc j hj]

theorem storeNode_t (r : SimR) (last : Tstate) (n_out n : ℕ)
    (acc : ℕ → Tstate) (hN : 1 ≤ r.N) :
    (storeNode r last n_out n acc (n_out + n)).t =
      r.t + r.dt_last_done * (hRadau n - 1) := by
  have hl : List.range r.N ≠ [] := by
    simp only [ne_eq, List.range_eq_nil]
    omega
  rw [storeNode, foldVel_t, foldPos_t r last n_out n _ acc hl]

theorem store_function_node_t (r : SimR) (out : ℕ → Tstate) (last : Tstate)
    (n_out n : ℕ) (h1 : 1 ≤ n) (h7 : n ≤ 7) (hN : 1 ≤ r.N) :
    ((store_function r out last n_out) (n_out + n)).t =
      r.t + r.dt_last_done * (hRadau n - 1) := by
  have hr : List.range 7 = [0, 1, 2, 3, 4, 5, 6] := rfl
  rw [store_function, hr]
  simp only [List.foldl_cons, List.foldl_nil]
  interval_cases n
  · rw [storeNode_ne r last n_out 7 _ _ (by omega),
      storeNode_ne r last n_out 6 _ _ (by omega),
      storeNode_ne r last n_out 5 _ _ (by omega),
      storeNode_ne r last n_out 4 _ _ (by omega),
      storeNode_ne r last n_out 3 _ _ (by omega),
      storeNode_ne r last n_out 2 _ _ (by omega)]
    exact storeNode_t r last n_out 1 _ hN
  · rw [storeNode_ne r last n_out 7 _ _ (by omega),
      storeNode_ne r last n_out 6 _ _ (by omega),
      storeNode_ne r last n_out 5 _ _ (by omega),
      storeNode_ne r last n_out 4 _ _ (by omega),
      storeNode_ne r last n_out 3 _ _ (by omega)]
    exact storeNode_t r last n_out 2 _ hN
  · rw [storeNode_ne r last n_out 7 _ _ (by omega),
      storeNode_ne r last n_out 6 _ _ (by omega),
      storeNode_ne r last n_out 5 _ _ (by omega),
      storeNode_ne r last n_out 4 _ _ (by omega)]
    exact storeNode_t r last n_out 3 _ hN
  · rw [storeNode_ne r last n_out 7 _ _ (by omega),
      storeNode_ne r last n_out 6 _ _ (by omega),
      storeNode_ne r last n_out 5 _ _ (by omega)]
    exact storeNode_t r last n_out 4 _ hN
  · rw [storeNode_ne r last n_out 7 _ _ (by omega),
      storeNode_ne r last n_out 6 _ _ (by omega)]
    exact storeNode_t r last n_out 5 _ hN
  · rw [storeNode_ne r last n_out 7 _ _ (by omega)]
    exact storeNode_t r last n_out 6 _ hN
  · exact storeNode_t r last n_out 7 _ hN

theorem store_function_start (r : SimR) (out : ℕ → Tstate) (last : Tstate)
    (n_out : ℕ) :
    ((store_function r out last n_out) n_out).t = last.t ∧
    ((store_function r out last n_out) n_out).x = last.x ∧
    ((store_function r out last n_out) n_out).y = last.y ∧
    ((store_function r out last n_out) n_out).z = last.z ∧
    ((store_function r out last n_out) n_out).vx = last.vx ∧
    ((store_function r out last n_out) n_out).vy = last.vy ∧
    ((store_function r out last n_out) n_out).vz = last.vz := by
  have hr : List.range 7 = [0, 1, 2, 3, 4, 5, 6] := rfl
  rw [store_function, hr]
  simp only [List.foldl_cons, List.foldl_nil]
  rw [storeNode_ne r last n_out 7 _ _ (by omega),
    storeNode_ne r last n_out 6 _ _ (by omega),
    storeNode_ne r last n_out 5 _ _ (by omega),
    storeNode_ne r last n_out 4 _ _ (by omega),
    storeNode_ne r last n_out 3 _ _ (by omega),
    storeNode_ne r last n_out 2 _ _ (by omega),
    storeNode_ne r last n_out 1 _ _ (by omega)]
  simp [upd]

theorem store_function_frame (r : SimR) (out : ℕ → Tstate) (last : Tstate)
    (n_out j : ℕ) (hj : j < n_out ∨ n_out + 7 < j) :
    (store_function r out last n_out) j = out j := by
  have hr : List.range 7 = [0, 1, 2, 3, 4, 5, 6] := rfl
  rw [store_function, hr]
  simp only [List.foldl_cons, List.foldl_nil]
  rw [storeNode_ne r last n_out 7 _ _ (by omega),
    storeNode_ne r last n_out 6 _ _ (by omega),
    storeNode_ne r last n_out 5 _ _ (by omega),
    storeNode_ne r last n_out 4 _ _ (by omega),
    storeNode_ne r last n_out 3 _ _ (by omega),
    storeNode_ne r last n_out 2 _ _ (by omega),
    storeNode_ne r last n_out 1 _ _ (by omega)]
  exact upd_ne out n_out j _ (by omega)

/-- C6 amended: for every completed integration step of a simulation with
at least one particle, `store_function` writes exactly 8 output states:
slot `n_out` receives the step-start state (time, position, velocity of
`last`), slots `n_out+1 .. n_out+7` receive states sampled at the fixed
relative Gauss-Radau node fractions `h[1..7] = {0.05626…, 0.18024…,
0.35262…, 0.54715…, 0.73421…, 0.88532…, 0.97752…}` of the last-completed
step size measured from the step start `r.t - dt_last_done` (the node
fraction 1.0 = h[8] is never sampled), every other slot is untouched, and
the 8 output times are strictly increasing in the order written provided
the last-completed step size is positive and the interval start state is
no later than the start of the last step. -/
theorem store_function_amended (r : SimR) (out : ℕ → Tstate) (last : Tstate)
    (n_out : ℕ) (hN : 1 ≤ r.N) :
    (((store_function r out last n_out) n_out).t = last.t ∧
     ((store_function r out last n_out) n_out).x = last.x ∧
     ((store_function r out last n_out) n_out).y = last.y ∧
     ((store_function r out last n_out) n_out).z = last.z ∧
     ((store_function r out last n_out) n_out).vx = last.vx ∧
     ((store_function r out last n_out) n_out).vy = last.vy ∧
     ((store_function r out last n_out) n_out).vz = last.vz) ∧
    (∀ n, 1 ≤ n → n ≤ 7 →
      ((store_function r out last n_out) (n_out + n)).t =
        (r.t - r.dt_last_done) + hRadau n * r.dt_last_done) ∧
    (∀ j, j < n_out ∨ n_out + 7 < j →
      (store_function r out last n_out) j = out j) ∧
    (0 < r.dt_last_done → last.t ≤ r.t - r.dt_last_done →
      ∀ n, n < 7 →
        ((store_function r out last n_out) (n_out + n)).t <
        ((store_function r out last n_out) (n_out + n + 1)).t) := by
  refine ⟨store_function_start r out last n_out, ?_,
    fun j hj => store_function_frame r out last n_out j hj, ?_⟩
  · intro n hn1 hn7
    rw [store_function_node_t r out last n_out n hn1 hn7 hN]
    ring
  · intro hdt hlast n hn
    have step : ∀ a : ℕ, 1 ≤ a → a + 1 ≤ 7 → hRadau a < hRadau (a + 1) →
        ((store_function r out last n_out) (n_out + a)).t <
        ((store_function r out last n_out) (n_out + a + 1)).t := by
      intro a ha1 ha7 hha
      have hA := store_function_node_t r out last n_out a ha1 (by omega) hN
      have hB := store_function_node_t r out last n_out (a + 1) (by omega)
        (by omega) hN
      rw [show n_out + a + 1 = n_out + (a + 1) from by omega, hA, hB]
      nlinarith
    interval_cases n
    · have ha := (store_function_start r out last n_out).1
      have hb := store_function_node_t r out last n_out 1 (by norm_num)
        (by norm_num) hN
      have hp : (0:ℚ) < hRadau 1 := by norm_num [hRadau]
      calc ((store_function r out last n_out) (n_out + 0)).t
          = last.t := ha
        _ < r.t + r.dt_last_done * (hRadau 1 - 1) := by nlinarith
        _ = ((store_function r out last n_out) (n_out + 0 + 1)).t := hb.symm
    · exact step 1 (by norm_num) (by norm_num) (by norm_num [hRadau])
    · exact step 2 (by norm_num) (by norm_num) (by norm_num [hRadau])
    · exact step 3 (by norm_num) (by norm_num) (by norm_num [hRadau])
    · exact step 4 (by norm_num) (by norm_num) (by norm_num [hRadau])
    · exact step 5 (by norm_num) (by norm_num) (by norm_num [hRadau])
    · exact step 6 (by norm_num) (by norm_num) (by norm_num [hRadau])

/-- Zero-initialized output state. -/
def tsZero : Tstate :=
  { t := 0, x := 0, y := 0, z := 0, vx := 0, vy := 0, vz := 0,
    ax := 0, ay := 0, az := 0 }

/-- Simulation snapshot of a backward integration: the last completed step
size is negative, as in the `problem.c` driver (`r->dt = -0.1`,
`tmax = r->t - 1000`). -/
def rNeg : SimR := { t := 0, dt_last_done := -1, N := 1, b := fun _ _ => 0 }

/-- Simulation snapshot of a forward step of size 1 ending at `t = 1`. -/
def rPos : SimR := { t := 1, dt_last_done := 1, N := 1, b := fun _ _ => 0 }

/-- Witness snapshot for the amended dense-output theorem. -/
def rWit : SimR := { t := 1, dt_last_done := 1, N := 1, b := fun _ _ => 0 }

/-- C6 counterexample: the claim asserts unconditionally strictly
increasing output times and a sample at relative node fraction 1.0.  On a
completed backward step (`dt_last_done = -1`, reachable since the example
driver integrates with `dt = -0.1`) the written times strictly decrease:
slot 1 is not earlier than slot 2.  And on a forward unit step ending at
`t = 1` (step start 0), a sample at fraction 1.0 would carry time exactly
1, but none of the 8 written slots does: the loop uses only `h[1..7]`. -/
theorem store_function_claim_cex :
    ¬ (((store_function rNeg (fun _ => tsZero) tsZero 0) 1).t <
       ((store_function rNeg (fun _ => tsZero) tsZero 0) 2).t) ∧
    (((store_function rPos (fun _ => tsZero) tsZero 0) 0).t ≠ 1 ∧
     ((store_function rPos (fun _ => tsZero) tsZero 0) 1).t ≠ 1 ∧
     ((store_function rPos (fun _ => tsZero) tsZero 0) 2).t ≠ 1 ∧
     ((store_function rPos (fun _ => tsZero) tsZero 0) 3).t ≠ 1 ∧
     ((store_function rPos (fun _ => tsZero) tsZero 0) 4).t ≠ 1 ∧
     ((store_function rPos (fun _ => tsZero) tsZero 0) 5).t ≠ 1 ∧
     ((store_function rPos (fun _ => tsZero) tsZero 0) 6).t ≠ 1 ∧
     ((store_function rPos (fun _ => tsZero) tsZero 0) 7).t ≠ 1) := by
  have keyNeg : ∀ n : ℕ, 1 ≤ n → n ≤ 7 →
      ((store_function rNeg (fun _ => tsZero) tsZero 0) (0 + n)).t =
        1 - hRadau n := by
    intro n h1 h7
    rw [store_function_node_t rNeg (fun _ => tsZero) tsZero 0 n h1 h7
      (by norm_num [rNeg])]
    show rNeg.t + rNeg.dt_last_done * (hRadau n - 1) = 1 - hRadau n
    norm_num [rNeg]
  have keyPos : ∀ n : ℕ, 1 ≤ n → n ≤ 7 →
      ((store_function rPos (fun _ => tsZero) tsZero 0) (0 + n)).t =
        hRadau n := by
    intro n h1 h7
    rw [store_function_node_t rPos (fun _ => tsZero) tsZero 0 n h1 h7
      (by norm_num [rPos])]
    show rPos.t + rPos.dt_last_done * (hRadau n - 1) = hRadau n
    norm_num [rPos]
  constructor
  · rw [show (1:ℕ) = 0 + 1 from rfl, show (2:ℕ) = 0 + 2 from rfl,
      keyNeg 1 (by norm_num) (by norm_num), keyNeg 2 (by norm_num) (by norm_num)]
    norm_num [hRadau]
  · refine ⟨?_, ?_, ?_, ?_, ?_, ?_, ?_, ?_⟩
    · rw [show ((store_function rPos (fun _ => tsZero) tsZero 0) 0).t =
          tsZero.t from (store_function_start rPos (fun _ => tsZero) tsZero 0).1]
      norm_num [tsZero]
    · rw [show (1:ℕ) = 0 + 1 from rfl, keyPos 1 (by norm_num) (by norm_num)]
      norm_num [hRadau]
    · rw [show (2:ℕ) = 0 + 2 from rfl, keyPos 2 (by norm_num) (by norm_num)]
      norm_num [hRadau]
    · rw [show (3:ℕ) = 0 + 3 from rfl, keyPos 3 (by norm_num) (by norm_num)]
      norm_num [hRadau]
    · rw [show (4:ℕ) = 0 + 4 from rfl, keyPos 4 (by norm_num) (by norm_num)]
      norm_num [hRadau]
    · rw [show (5:ℕ) = 0 + 5 from rfl, keyPos 5 (by norm_num) (by norm_num)]
      norm_num [hRadau]
    · rw [show (6:ℕ) = 0 + 6 from rfl, keyPos 6 (by norm_num) (by norm_num)]
      norm_num [hRadau]
    · rw [show (7:ℕ) = 0 + 7 from rfl, keyPos 7 (by norm_num) (by norm_num)]
      norm_num [hRadau]

theorem store_function_amended_witness :
    (1 ≤ rWit.N) ∧
    ((((store_function rWit (fun _ => tsZero) tsZero 0) 0).t = tsZero.t ∧
      ((store_function rWit (fun _ => tsZero) tsZero 0) 0).x = tsZero.x ∧
      ((store_function rWit (fun _ => tsZero) tsZero 0) 0).y = tsZero.y ∧
      ((store_function rWit (fun _ => tsZero) tsZero 0) 0).z = tsZero.z ∧
      ((store_function rWit (fun _ => tsZero) tsZero 0) 0).vx = tsZero.vx ∧
      ((store_function rWit (fun _ => tsZero) tsZero 0) 0).vy = tsZero.vy ∧
      ((store_function rWit (fun _ => tsZero) tsZero 0) 0).vz = tsZero.vz) ∧
     (∀ n, 1 ≤ n → n ≤ 7 →
       ((store_function rWit (fun _ => tsZero) tsZero 0) (0 + n)).t =
         (rWit.t - rWit.dt_last_done) + hRadau n * rWit.dt_last_done) ∧
     (∀ j, j < 0 ∨ 0 + 7 < j →
       (store_function rWit (fun _ => tsZero) tsZero 0) j =
         (fun _ => tsZero) j) ∧
     (0 < rWit.dt_last_done → tsZero.t ≤ rWit.t - rWit.dt_last_done →
       ∀ n, n < 7 →
         ((store_function rWit (fun _ => tsZero) tsZero 0) (0 + n)).t <
         ((store_function rWit (fun _ => tsZero) tsZero 0) (0 + n + 1)).t)) :=
  ⟨le_refl 1,
   store_function_amended rWit (fun _ => tsZero) tsZero 0 (le_refl 1)⟩

end Reboundx
